import Mathlib

/-!
Shallow embedding of the core of the k6 performance-test helper framework:
the `RequestBuilder` class (src/helpers/request-builder.ts) and the
`ResponseValidator` class (src/helpers/response-validator.ts), together with
models of the JavaScript runtime primitives they use (`JSON.stringify`,
`JSON.parse`, the `in` operator, `encodeURIComponent`, `btoa`, string
`trim`/`endsWith`/`startsWith`/`slice`).

Modelling conventions:
- JavaScript strings are Lean `String`s (lists of unicode scalar values); the
  handful of string operations the source uses are defined on `String.data`.
- JavaScript numbers are modelled as `Int` (for status codes and JSON numbers)
  or `Rat` (for durations); floating-point values are outside the embedding,
  integers are the fragment the framework exercises.
- JavaScript objects are insertion-ordered key/value lists with unique keys;
  property insertion (`o[k] = v`) overwrites in place or appends at the end,
  exactly like JS property order.
- Functions that can throw are modelled in `Except`; a thrown exception leaves
  the mutable state that existed before the call (the source always validates
  before mutating).
-/

namespace K6

/-! ## Character and string primitives -/

/-- JSON insignificant whitespace (RFC 8259: space, tab, line feed, carriage return). -/
def isWs (c : Char) : Bool :=
  c = ' ' || c = '\t' || c = '\n' || c = '\r'

/-- Skip JSON whitespace at the front of a character stream. -/
def skipWs (s : List Char) : List Char :=
  s.dropWhile isWs

/-- Decimal digit test on characters (code points 48 to 57). -/
def isDig (c : Char) : Bool :=
  48 ≤ c.toNat && c.toNat ≤ 57

/-- Streams that do not begin with a decimal digit: after a serialized number
the parser must not read further, which holds whenever the remaining stream
starts with a delimiter or is empty. -/
def headNotDig : List Char → Prop
  | [] => True
  | c :: _ => isDig c = false

/-- White space removed by JavaScript `String.prototype.trim` (the common
code points: space, tab, LF, CR, VT, FF, NBSP, BOM; the remaining exotic
Unicode space code points do not occur in the framework). -/
def isJsSpace (c : Char) : Bool :=
  c.toNat = 32 || c.toNat = 9 || c.toNat = 10 || c.toNat = 13 ||
  c.toNat = 11 || c.toNat = 12 || c.toNat = 160 || c.toNat = 65279

/-- Model of JavaScript `s.trim()`. -/
def jsTrim (s : String) : String :=
  ⟨((s.data.dropWhile isJsSpace).reverse.dropWhile isJsSpace).reverse⟩

/-- Decimal digits of `n`, least significant first, driven by explicit fuel so
that the definition is structural (kernel-reducible). -/
def digitsRevAux : Nat → Nat → List Nat
  | 0, _ => []
  | f + 1, n => if n = 0 then [] else n % 10 :: digitsRevAux f (n / 10)

/-- Decimal digits of `n`, least significant first (`n` itself is enough fuel). -/
def digitsRev (n : Nat) : List Nat :=
  digitsRevAux n n

/-- Value of a least-significant-first decimal digit list. -/
def decVal : List Nat → Nat
  | [] => 0
  | d :: ds => d + 10 * decVal ds

/-- Character for a decimal digit. -/
def digitCh : Nat → Char
  | 0 => '0' | 1 => '1' | 2 => '2' | 3 => '3' | 4 => '4'
  | 5 => '5' | 6 => '6' | 7 => '7' | 8 => '8' | _ => '9'

/-- Decimal representation of a natural number, as JavaScript prints it. -/
def natRepr (n : Nat) : List Char :=
  if n = 0 then ['0'] else (digitsRev n).reverse.map digitCh

/-- Decimal representation of an integer, as JavaScript prints it
(template literals and `JSON.stringify` agree on integers). -/
def intRepr (i : Int) : List Char :=
  if i < 0 then '-' :: natRepr i.natAbs else natRepr i.natAbs

/-- Decimal string of a natural number (used for array index property names). -/
def natToString (n : Nat) : String :=
  ⟨natRepr n⟩

/-- Decimal string of an integer (used for template-literal interpolation). -/
def intToString (i : Int) : String :=
  ⟨intRepr i⟩

/-- Lower-case hexadecimal digit character. -/
def hexL : Nat → Char
  | 0 => '0' | 1 => '1' | 2 => '2' | 3 => '3' | 4 => '4' | 5 => '5'
  | 6 => '6' | 7 => '7' | 8 => '8' | 9 => '9' | 10 => 'a' | 11 => 'b'
  | 12 => 'c' | 13 => 'd' | 14 => 'e' | _ => 'f'

/-- Upper-case hexadecimal digit character (used by `encodeURIComponent`). -/
def hexU : Nat → Char
  | 0 => '0' | 1 => '1' | 2 => '2' | 3 => '3' | 4 => '4' | 5 => '5'
  | 6 => '6' | 7 => '7' | 8 => '8' | 9 => '9' | 10 => 'A' | 11 => 'B'
  | 12 => 'C' | 13 => 'D' | 14 => 'E' | _ => 'F'

/-- Numeric value of a hexadecimal digit character, if it is one. -/
def hexVal (c : Char) : Option Nat :=
  if 48 ≤ c.toNat && c.toNat ≤ 57 then some (c.toNat - 48)
  else if 97 ≤ c.toNat && c.toNat ≤ 102 then some (c.toNat - 87)
  else if 65 ≤ c.toNat && c.toNat ≤ 70 then some (c.toNat - 55)
  else none

/-! ## JSON values and `JSON.stringify` -/

/-- JSON-serializable JavaScript values (the domain of `JSON.stringify`):
null, booleans, numbers (integer fragment), strings, arrays and objects.
Object member lists are in property insertion order. -/
inductive Json where
  | null
  | bool (b : Bool)
  | num (n : Int)
  | str (s : String)
  | arr (xs : List Json)
  | obj (fs : List (String × Json))
deriving Repr

/-- String escaping performed by `JSON.stringify` on one character:
quote and backslash get a backslash escape, the named control characters get
their short escapes, the remaining control characters become `\u00xx`, and
every other character is emitted verbatim. -/
def escapeChar (c : Char) : List Char :=
  if c = '"' then ['\\', '"']
  else if c = '\\' then ['\\', '\\']
  else if c = '\x08' then ['\\', 'b']
  else if c = '\x0c' then ['\\', 'f']
  else if c = '\n' then ['\\', 'n']
  else if c = '\r' then ['\\', 'r']
  else if c = '\t' then ['\\', 't']
  else if c.toNat < 32 then ['\\', 'u', '0', '0', hexL (c.toNat / 16), hexL (c.toNat % 16)]
  else [c]

/-- String escaping performed by `JSON.stringify`, over a character list. -/
def escapeList : List Char → List Char
  | [] => []
  | c :: cs => escapeChar c ++ escapeList cs

mutual

/-- Model of `JSON.stringify` on JSON-serializable values (no cycles exist in
an inductive value, so the try/catch in `buildPayload` never fires). Arrays
and objects are emitted without any whitespace, members in insertion order,
exactly as the JavaScript runtime prints them. -/
def Json.stringify : Json → List Char
  | .null => ['n', 'u', 'l', 'l']
  | .bool b => if b then ['t', 'r', 'u', 'e'] else ['f', 'a', 'l', 's', 'e']
  | .num n => intRepr n
  | .str s => '"' :: (escapeList s.data ++ ['"'])
  | .arr [] => ['[', ']']
  | .arr (x :: xs) => '[' :: ((Json.stringify x ++ emitRest xs) ++ [']'])
  | .obj [] => ['{', '}']
  | .obj (m :: ms) => '{' :: ((emitMember m ++ emitMembersRest ms) ++ ['}'])

/-- Second and later array elements, each preceded by a comma. -/
def emitRest : List Json → List Char
  | [] => []
  | x :: xs => ',' :: (Json.stringify x ++ emitRest xs)

/-- One object member, `"key":value`. -/
def emitMember : String × Json → List Char
  | (k, v) => '"' :: (escapeList k.data ++ ('"' :: ':' :: Json.stringify v))

/-- Second and later object members, each preceded by a comma. -/
def emitMembersRest : List (String × Json) → List Char
  | [] => []
  | m :: ms => ',' :: (emitMember m ++ emitMembersRest ms)

end

/-- Key lists of JavaScript objects never repeat a key. -/
def distinctKeys : List String → Bool
  | [] => true
  | k :: ks => !(ks.contains k) && distinctKeys ks

mutual

/-- Well-formedness of a `Json` value as the image of an actual JavaScript
value: every object member list carries pairwise distinct keys (a JS object
cannot hold two properties with the same name). -/
def Json.wf : Json → Bool
  | .null => true
  | .bool _ => true
  | .num _ => true
  | .str _ => true
  | .arr xs => wfList xs
  | .obj ms => distinctKeys (ms.map Prod.fst) && wfMembers ms

/-- Well-formedness for every element of an array. -/
def wfList : List Json → Bool
  | [] => true
  | x :: xs => Json.wf x && wfList xs

/-- Well-formedness for every member value of an object. -/
def wfMembers : List (String × Json) → Bool
  | [] => true
  | m :: ms => Json.wf m.2 && wfMembers ms

end

/-- JavaScript property insertion `o[k] = v` on an insertion-ordered member
list: overwrite in place if the key is present, append otherwise. -/
def setKey {α : Type} (l : List (String × α)) (k : String) (v : α) : List (String × α) :=
  if l.any (fun p => p.1 == k) then
    l.map (fun p => if p.1 == k then (p.1, v) else p)
  else l ++ [(k, v)]

/-- Building a JavaScript object from parsed members in order: later members
with a repeated key overwrite earlier ones, as in `JSON.parse`. -/
def collapse (l : List (String × Json)) : List (String × Json) :=
  l.foldl (fun acc m => setKey acc m.1 m.2) []

/-! ## Model of `JSON.parse` -/

/-- Parse the body of a JSON string literal (after the opening quote), with
explicit fuel (one unit per consumed character suffices). Returns the decoded
characters and the stream after the closing quote. Surrogate `\u` escapes are
outside the model (Lean characters are unicode scalar values). -/
def parseStringBody : Nat → List Char → Option (List Char × List Char)
  | 0, _ => none
  | f + 1, s =>
    match s with
    | [] => none
    | c :: rest =>
      if c = '"' then some ([], rest)
      else if c = '\\' then
        match rest with
        | [] => none
        | e :: r2 =>
          if e = '"' then mapCons '"' (parseStringBody f r2)
          else if e = '\\' then mapCons '\\' (parseStringBody f r2)
          else if e = '/' then mapCons '/' (parseStringBody f r2)
          else if e = 'b' then mapCons '\x08' (parseStringBody f r2)
          else if e = 'f' then mapCons '\x0c' (parseStringBody f r2)
          else if e = 'n' then mapCons '\n' (parseStringBody f r2)
          else if e = 'r' then mapCons '\r' (parseStringBody f r2)
          else if e = 't' then mapCons '\t' (parseStringBody f r2)
          else if e = 'u' then
            match r2 with
            | h1 :: h2 :: h3 :: h4 :: r3 =>
              match hexVal h1, hexVal h2, hexVal h3, hexVal h4 with
              | some a, some b, some c2, some d =>
                let n := ((a * 16 + b) * 16 + c2) * 16 + d
                if n < 55296 || 57344 ≤ n then
                  mapCons (Char.ofNat n) (parseStringBody f r3)
                else none
              | _, _, _, _ => none
            | _ => none
          else none
      else if c.toNat < 32 then none
      else mapCons c (parseStringBody f rest)
where
  /-- Prepend a decoded character to a string-body parse result. -/
  mapCons (c : Char) : Option (List Char × List Char) → Option (List Char × List Char)
    | some (l, r) => some (c :: l, r)
    | none => none

/-- Parse a maximal run of decimal digits into a natural number. -/
def parseNat (s : List Char) : Option (Nat × List Char) :=
  let ds := s.takeWhile isDig
  if ds.isEmpty then none
  else some (ds.foldl (fun a c => a * 10 + (c.toNat - 48)) 0, s.dropWhile isDig)

/-- Parse mode: a complete value, the element list of a non-empty array, or
the member list of a non-empty object. -/
inductive PMode where
  | value
  | elems
  | members

/-- Parse result for each mode. -/
inductive PRes where
  | v (x : Json)
  | vs (xs : List Json)
  | ms (l : List (String × Json))

/-- Expect a literal character sequence, then produce the given value. -/
def expectLit : List Char → List Char → Json → Option (PRes × List Char)
  | [], r, x => some (.v x, r)
  | p :: ps, c :: r, x => if c = p then expectLit ps r x else none
  | _ :: _, [], _ => none

/-- Recursive core of `JSON.parse`, driven by fuel so that the recursion is
structural. Grammar as in RFC 8259 with the numeric fragment restricted to
integers (the only numbers the framework serializes); object members are
collapsed left to right, so a repeated key keeps its first position and last
value, as in JavaScript. -/
def parseP : Nat → PMode → List Char → Option (PRes × List Char)
  | 0, _, _ => none
  | f + 1, .value, s =>
    match skipWs s with
    | [] => none
    | c :: r =>
      if c = 'n' then expectLit ['u', 'l', 'l'] r Json.null
      else if c = 't' then expectLit ['r', 'u', 'e'] r (Json.bool true)
      else if c = 'f' then expectLit ['a', 'l', 's', 'e'] r (Json.bool false)
      else if c = '"' then
        match parseStringBody (r.length + 1) r with
        | some (cs, rest) => some (.v (Json.str ⟨cs⟩), rest)
        | none => none
      else if c = '-' then
        match parseNat r with
        | some (v, rest) => some (.v (Json.num (-(Int.ofNat v))), rest)
        | none => none
      else if isDig c then
        match parseNat (c :: r) with
        | some (v, rest) => some (.v (Json.num (Int.ofNat v)), rest)
        | none => none
      else if c = '[' then
        match skipWs r with
        | [] => none
        | c2 :: r2 =>
          if c2 = ']' then some (.v (Json.arr []), r2)
          else
            match parseP f .elems (c2 :: r2) with
            | some (.vs xs, rest) => some (.v (Json.arr xs), rest)
            | _ => none
      else if c = '{' then
        match skipWs r with
        | [] => none
        | c2 :: r2 =>
          if c2 = '}' then some (.v (Json.obj []), r2)
          else
            match parseP f .members (c2 :: r2) with
            | some (.ms l, rest) => some (.v (Json.obj (collapse l)), rest)
            | _ => none
      else none
  | f + 1, .elems, s =>
    match parseP f .value s with
    | some (.v x, r) =>
      (match skipWs r with
       | [] => none
       | c :: r2 =>
         if c = ',' then
           match parseP f .elems r2 with
           | some (.vs xs, rest) => some (.vs (x :: xs), rest)
           | _ => none
         else if c = ']' then some (.vs [x], r2)
         else none)
    | _ => none
  | f + 1, .members, s =>
    match skipWs s with
    | [] => none
    | c :: r =>
      if c = '"' then
        match parseStringBody (r.length + 1) r with
        | none => none
        | some (k, r1) =>
          match skipWs r1 with
          | [] => none
          | c2 :: r2 =>
            if c2 = ':' then
              match parseP f .value r2 with
              | some (.v v, r3) =>
                (match skipWs r3 with
                 | [] => none
                 | c3 :: r4 =>
                   if c3 = ',' then
                     match parseP f .members r4 with
                     | some (.ms l, rest) => some (.ms ((⟨k⟩, v) :: l), rest)
                     | _ => none
                   else if c3 = '}' then some (.ms [(⟨k⟩, v)], r4)
                   else none)
              | _ => none
            else none
      else none

/-- Model of `JSON.parse`: parse one value, allow trailing whitespace, reject
trailing garbage. Twice the input length (plus slack) bounds the recursion
depth, so the fuel never runs out on a parse that should succeed. -/
def jsonParse (s : String) : Option Json :=
  match parseP (2 * s.data.length + 4) .value s.data with
  | some (.v x, rest) => if (skipWs rest).isEmpty then some x else none
  | _ => none

/-! ## JavaScript runtime values seen by the response validator -/

/-- Arbitrary JavaScript values that can reach the validator at run time
(the `any`-typed `response`/`body` arguments): the JSON fragment plus
`undefined`. Functions and floats are outside the embedding. -/
inductive JsValue where
  | null
  | undefined
  | bool (b : Bool)
  | num (n : Int)
  | str (s : String)
  | arr (xs : List JsValue)
  | obj (fs : List (String × JsValue))
deriving Repr

/-- Model of the JavaScript `typeof` operator. -/
def jsTypeof : JsValue → String
  | .null => "object"
  | .undefined => "undefined"
  | .bool _ => "boolean"
  | .num _ => "number"
  | .str _ => "string"
  | .arr _ => "object"
  | .obj _ => "object"

/-- Values on which `typeof v === "object" && v !== null` holds: arrays and
plain objects. -/
def isObjectLike : JsValue → Bool
  | .arr _ => true
  | .obj _ => true
  | _ => false

/-- Model of `Array.isArray`. -/
def isArrayV : JsValue → Bool
  | .arr _ => true
  | _ => false

/-- Own-property presence, the meaning of `field in response` on object-like
values: object keys, array indices and the array `length` property
(prototype-inherited members are outside the model). -/
def keyIn (field : String) : JsValue → Bool
  | .obj fs => fs.any (fun p => p.1 == field)
  | .arr xs => field == "length" || (List.range xs.length).any (fun i => natToString i == field)
  | _ => false

/-- Model of the `in` operator itself: on a primitive or null right operand,
JavaScript raises a TypeError. -/
inductive JsError where
  | typeError
deriving Repr, DecidableEq

/-- The `in` operator: property test on object-like values, TypeError
otherwise. -/
def jsIn (field : String) (v : JsValue) : Except JsError Bool :=
  if isObjectLike v then .ok (keyIn field v) else .error .typeError

/-- Property read `response[field]` on object-like values (`undefined` when
absent; arrays expose their elements and `length`). -/
def getField (v : JsValue) (field : String) : JsValue :=
  match v with
  | .obj fs =>
    match fs.find? (fun p => p.1 == field) with
    | some p => p.2
    | none => .undefined
  | .arr xs =>
    if field = "length" then .num (Int.ofNat xs.length)
    else
      match (List.range xs.length).find? (fun i => natToString i == field) with
      | some i => xs.getD i .undefined
      | none => .undefined
  | _ => .undefined

/-- Model of `Object.keys(v).length` for the values that reach it. -/
def jsKeyCount : JsValue → Nat
  | .obj fs => fs.length
  | .arr xs => xs.length
  | _ => 0

/-! ## Constants (src/constants/index.ts) -/

/-- HTTP status range bounds from `HTTP_STATUS`. -/
def SUCCESS_MIN : Int := 200
/-- Upper bound of the 2xx range. -/
def SUCCESS_MAX : Int := 299
/-- Lower bound of the 4xx range. -/
def CLIENT_ERROR_MIN : Int := 400
/-- Upper bound of the 4xx range. -/
def CLIENT_ERROR_MAX : Int := 499
/-- Lower bound of the 5xx range. -/
def SERVER_ERROR_MIN : Int := 500
/-- Upper bound of the 5xx range. -/
def SERVER_ERROR_MAX : Int := 599

/-- `ContentType.JSON` from the constants module. -/
def ContentTypeJSON : String := "application/json"

/-- `ERROR_MESSAGES.EMPTY_RESPONSE`. -/
def EMPTY_RESPONSE : String := "Response body is empty"
/-- `ERROR_MESSAGES.INVALID_JSON`. -/
def INVALID_JSON : String := "Invalid JSON format"
/-- `ERROR_MESSAGES.MISSING_REQUIRED_FIELD`. -/
def MISSING_REQUIRED_FIELD : String := "Required field is missing"

/-! ## ResponseValidator (src/helpers/response-validator.ts) -/

/-- Result of `hasRequiredFields`: validity flag and the ordered list of
missing field names. -/
structure FieldValidationResult where
  valid : Bool
  missing : List String
deriving Repr, DecidableEq

/-- The `ValidationResult` interface as produced by `validateSchema` and
`validateResponse`: the `errors` field is the `details.errors` list of the
source (the only component of `details` these two methods populate). -/
structure ValidationResult where
  valid : Bool
  message : String
  errors : List String
deriving Repr, DecidableEq

/-- Result of `validateRequiredFields`; `expectedFields` is populated only on
the early non-object return, `missingFields`/`nullFields` only on the normal
path, mirroring the two `details` shapes of the source. -/
structure RequiredFieldsResult where
  valid : Bool
  message : String
  missingFields : List String
  nullFields : List String
  expectedFields : List String
deriving Repr, DecidableEq

namespace ResponseValidator

/-- Checks whether the status code is in the 2xx range. -/
def isSuccessful (statusCode : Int) : Bool :=
  SUCCESS_MIN ≤ statusCode && statusCode ≤ SUCCESS_MAX

/-- Checks whether the status code is in the 4xx range. -/
def isClientError (statusCode : Int) : Bool :=
  CLIENT_ERROR_MIN ≤ statusCode && statusCode ≤ CLIENT_ERROR_MAX

/-- Checks whether the status code is in the 5xx range. -/
def isServerError (statusCode : Int) : Bool :=
  SERVER_ERROR_MIN ≤ statusCode && statusCode ≤ SERVER_ERROR_MAX

/-- Checks whether the status code equals the expected one. -/
def hasExpectedStatus (statusCode expectedCode : Int) : Bool :=
  statusCode == expectedCode

/-- Checks whether the response contains the required fields. The guard
`typeof response !== "object" || response === null` sends exactly the
non-object-like values (null, undefined, booleans, numbers, strings) to the
early return that reports every field missing; arrays pass the guard. -/
def hasRequiredFields (response : JsValue) (fields : List String) : FieldValidationResult :=
  if !(isObjectLike response) then
    { valid := false, missing := fields }
  else
    let missingFields := fields.filter (fun field => !(keyIn field response))
    { valid := missingFields.isEmpty, missing := missingFields }

/-- Deprecated alias kept by the source. -/
def hasRequestFields (response : JsValue) (fields : List String) : FieldValidationResult :=
  hasRequiredFields response fields

/-- Stricter variant: a field is also reported (as null) when present with a
null or undefined value. -/
def validateRequiredFields (response : JsValue) (fields : List String) : RequiredFieldsResult :=
  if !(isObjectLike response) then
    { valid := false, message := INVALID_JSON, missingFields := [], nullFields := [],
      expectedFields := fields }
  else
    let missingFields := fields.filter (fun field => !(keyIn field response))
    let nullFields := fields.filter (fun field =>
      keyIn field response &&
        (match getField response field with
         | .null => true
         | .undefined => true
         | _ => false))
    let isValid := missingFields.isEmpty && nullFields.isEmpty
    { valid := isValid,
      message := if isValid then "All required fields present and valid" else MISSING_REQUIRED_FIELD,
      missingFields := missingFields, nullFields := nullFields, expectedFields := [] }

/-- Checks whether a string parses as JSON; empty or blank input is rejected
up front, a parse failure is caught and turned into `false`. -/
def isValidJson (response : String) : Bool :=
  if response = "" || jsTrim response = "" then false
  else (jsonParse response).isSome

/-- Deprecated alias kept by the source. -/
def isvalidJson (response : String) : Bool :=
  isValidJson response

/-- Parses JSON, returning the sentinel `none` (the null return of the
source) instead of propagating the parse exception. -/
def parseJsonSafely (response : String) : Option Json :=
  jsonParse response

/-- Checks a measured duration against a threshold: negative inputs are
rejected, otherwise the comparison is non-strict. -/
def meetsPerformanceThresholds (responseTime threshold : Rat) : Bool :=
  if responseTime < 0 || threshold < 0 then false
  else responseTime ≤ threshold

/-- Checks that a response body is present and non-empty: null and undefined
fail, blank strings fail, object-like values with zero keys fail, everything
else passes. -/
def hasResponseBody (body : JsValue) : Bool :=
  match body with
  | .null => false
  | .undefined => false
  | .str s => !(jsTrim s == "")
  | .arr xs => !(xs.length == 0)
  | .obj fs => !(fs.length == 0)
  | _ => true

/-- Checks that a field exists and has the expected runtime type (arrays
report as "array"). The source reads `field in response` without guarding
`response`, so a null or primitive response raises a TypeError. -/
def hasExpectedType (response : JsValue) (field expectedType : String) : Except JsError Bool :=
  match jsIn field response with
  | .error e => .error e
  | .ok false => .ok false
  | .ok true =>
    let fv := getField response field
    let actualType := if isArrayV fv then "array" else jsTypeof fv
    .ok (actualType == expectedType)

/-- Validates a response against a schema of field/type pairs by running
`hasExpectedType` on every pair (a TypeError raised there propagates) and
collecting one error line per failing field. -/
def validateSchema (response : JsValue) (schema : List (String × String)) :
    Except JsError ValidationResult := do
  let errors ← schema.foldlM (fun acc fe => do
    let ok ← hasExpectedType response fe.1 fe.2
    pure (if ok then acc else acc ++ ["Field \x27" ++ fe.1 ++ "\x27 validation failed"])) []
  pure { valid := errors.isEmpty,
         message := if errors.isEmpty then "Schema validation passed" else "Schema validation failed",
         errors := errors }

/-- Checks that an array value has at least the given length. -/
def hasMinLength (response : JsValue) (minLength : Int) : Bool :=
  match response with
  | .arr xs => minLength ≤ Int.ofNat xs.length
  | _ => false

/-- Comprehensive response validation: collects an error line for a non-2xx
status, a missing body, and missing required fields; the `maxDuration`
parameter is accepted but never read. -/
def validateResponse (statusCode : Int) (body : JsValue)
    (requiredFields : Option (List String)) (maxDuration : Option Rat) : ValidationResult :=
  let _ := maxDuration
  let errors : List String :=
    (if !(isSuccessful statusCode) then ["Invalid status code: " ++ intToString statusCode] else [])
    ++ (if !(hasResponseBody body) then [EMPTY_RESPONSE] else [])
    ++ (match requiredFields with
        | some fields =>
          if 0 < fields.length then
            let fieldValidation := hasRequiredFields body fields
            if !fieldValidation.valid then
              ["Missing required fields: " ++ String.intercalate ", " fieldValidation.missing]
            else []
          else []
        | none => [])
  { valid := errors.isEmpty,
    message := if errors.isEmpty then "Response validation passed" else "Response validation failed",
    errors := errors }

end ResponseValidator

/-! ## RequestBuilder (src/helpers/request-builder.ts) -/

/-- Model of JavaScript `s.endsWith("/")` (test on the last code unit). -/
def endsWithSlash (s : String) : Bool :=
  s.data.getLast? == some '/'

/-- Model of `s.endsWith("/") ? s.slice(0, -1) : s`, the base-URL
normalization performed by the constructor. -/
def stripTrailingSlash (s : String) : String :=
  if endsWithSlash s then ⟨s.data.dropLast⟩ else s

/-- Model of JavaScript `s.startsWith("/")`. -/
def startsWithSlash (s : String) : Bool :=
  s.data.head? == some '/'

/-- The two default headers installed by the constructor and `clearHeaders`. -/
def defaultHeaders : List (String × String) :=
  [("Content-Type", ContentTypeJSON), ("Accept", ContentTypeJSON)]

/-- State of a `RequestBuilder`: the normalized base URL and the
insertion-ordered header mapping. The `validateUrl` guard of the constructor
(a WHATWG URL parse that throws on malformed input) does not contribute to the
stored state and is outside the embedding; all theorems therefore quantify
over every base string, valid URLs included. -/
structure RequestBuilder where
  baseUrl : String
  headers : List (String × String)
deriving Repr, DecidableEq

/-- Errors thrown by `setHeader`. -/
inductive HeaderError where
  | invalidHeaderKey
  | invalidHeaderValue
deriving Repr, DecidableEq

namespace RequestBuilder

/-- The constructor: strip one trailing slash from the base URL and install
the two default JSON headers. -/
def init (baseUrl : String) : RequestBuilder :=
  { baseUrl := stripTrailingSlash baseUrl, headers := defaultHeaders }

/-- Sets one header. The key must be non-blank (`!key || key.trim() === ""`
throws), the value must be present (null or undefined throws); otherwise the
entry is inserted or overwritten in place. The checks precede the mutation,
so a throw leaves the header mapping untouched. -/
def setHeader (b : RequestBuilder) (key : String) (value : Option String) :
    Except HeaderError RequestBuilder :=
  if key = "" || jsTrim key = "" then .error .invalidHeaderKey
  else
    match value with
    | none => .error .invalidHeaderValue
    | some v => .ok { b with headers := setKey b.headers key v }

/-- The builder state observable after a `setHeader` call, whether or not it
threw: the updated builder on success, the untouched builder on a throw. -/
def afterSetHeader (b : RequestBuilder) (key : String) (value : Option String) : RequestBuilder :=
  match b.setHeader key value with
  | .ok b2 => b2
  | .error _ => b

/-- Applies `setHeader` to each entry in order; the first failing entry
aborts (the exception propagates) and keeps the updates made so far. -/
def setHeadersRun (b : RequestBuilder) : List (String × Option String) → RequestBuilder
  | [] => b
  | (k, v) :: rest =>
    match b.setHeader k v with
    | .ok b2 => b2.setHeadersRun rest
    | .error _ => b

/-- Convenience wrapper `setContentType`. -/
def setContentType (b : RequestBuilder) (contentType : String) : RequestBuilder :=
  b.afterSetHeader "Content-Type" (some contentType)

/-- Convenience wrapper `setBearerToken`. -/
def setBearerToken (b : RequestBuilder) (token : String) : RequestBuilder :=
  b.afterSetHeader "Authorization" (some ("Bearer " ++ token))

/-- Removes a header if present (JavaScript `delete`); no error if absent. -/
def removeHeader (b : RequestBuilder) (key : String) : RequestBuilder :=
  { b with headers := b.headers.filter (fun p => !(p.1 == key)) }

/-- Resets the header mapping to exactly the two default headers. -/
def clearHeaders (b : RequestBuilder) : RequestBuilder :=
  { b with headers := defaultHeaders }

/-- Returns the header mapping (the source returns a spread copy so callers
cannot mutate builder state; copies are value-equal in the embedding). -/
def getHeaders (b : RequestBuilder) : List (String × String) :=
  b.headers

/-- Alias for `getHeaders`. -/
def getRequestHeaders (b : RequestBuilder) : List (String × String) :=
  b.getHeaders

/-- Serializes a payload with `JSON.stringify`; the try/catch of the source
only fires on cyclic values, which do not exist among inductive values. -/
def buildPayload (b : RequestBuilder) (data : Json) : String :=
  let _ := b
  ⟨Json.stringify data⟩

/-- Returns the stored base URL. -/
def getBaseUrl (b : RequestBuilder) : String :=
  b.baseUrl

/-- Creates a new builder through the constructor (which re-normalizes the
stored base URL) and then installs a spread copy of the current headers. -/
def clone (b : RequestBuilder) : RequestBuilder :=
  { init b.baseUrl with headers := b.headers }

end RequestBuilder

/-! ## URL assembly and `encodeURIComponent` -/

/-- UTF-8 bytes of one character (as naturals below 256). -/
def utf8Bytes (c : Char) : List Nat :=
  let n := c.toNat
  if n < 128 then [n]
  else if n < 2048 then [192 + n / 64, 128 + n % 64]
  else if n < 65536 then [224 + n / 4096, 128 + (n / 64) % 64, 128 + n % 64]
  else [240 + n / 262144, 128 + (n / 4096) % 64, 128 + (n / 64) % 64, 128 + n % 64]

/-- Characters that `encodeURIComponent` leaves unescaped: letters, digits
and `- _ . ! ~ * ( )` and the apostrophe (code point 39). -/
def isUnreserved (c : Char) : Bool :=
  (65 ≤ c.toNat && c.toNat ≤ 90) || (97 ≤ c.toNat && c.toNat ≤ 122) ||
  (48 ≤ c.toNat && c.toNat ≤ 57) ||
  c.toNat = 45 || c.toNat = 95 || c.toNat = 46 || c.toNat = 33 ||
  c.toNat = 126 || c.toNat = 42 || c.toNat = 39 || c.toNat = 40 || c.toNat = 41

/-- Percent-encoding of one byte, upper-case hex. -/
def pctByte (b : Nat) : List Char :=
  ['%', hexU (b / 16), hexU (b % 16)]

/-- Percent-encoding of one character: kept verbatim if unreserved, otherwise
each UTF-8 byte is percent-encoded. -/
def encChar (c : Char) : List Char :=
  if isUnreserved c then [c]
  else (utf8Bytes c).foldr (fun b acc => pctByte b ++ acc) []

/-- Percent-encoding of a character list. -/
def encodeList : List Char → List Char
  | [] => []
  | c :: cs => encChar c ++ encodeList cs

/-- Model of JavaScript `encodeURIComponent` (lone surrogates, on which it
throws, cannot occur among unicode scalar values). -/
def encodeURIComponent (s : String) : String :=
  ⟨encodeList s.data⟩

/-- Query parameter filter of `buildUrl`: a pair survives when its value is
neither null/undefined nor the empty string. -/
def keepParam (v : Option String) : Bool :=
  match v with
  | none => false
  | some s => !(s == "")

namespace RequestBuilder

/-- Normalization of the endpoint argument: ensure a single leading slash
(prepend one only when missing). -/
def normalizeEndpoint (endpoint : String) : String :=
  if startsWithSlash endpoint then endpoint else "/" ++ endpoint

/-- Builds the full URL: base plus normalized endpoint; query parameters (an
insertion-ordered mapping, absent/null modelled as `none`) are filtered for
null/undefined/empty values, percent-encoded and joined `key=value` with `&`
after a single `?`; if none survive the bare path is returned. -/
def buildUrl (b : RequestBuilder) (endpoint : String)
    (queryParams : Option (List (String × Option String))) : String :=
  let url := b.baseUrl ++ normalizeEndpoint endpoint
  match queryParams with
  | none => url
  | some ps =>
    if ps.length = 0 then url
    else
      let validParams := ps.filter (fun p => keepParam p.2)
      if validParams.length = 0 then url
      else
        url ++ "?" ++ String.intercalate "&"
          (validParams.map (fun p => encodeURIComponent p.1 ++ "=" ++ encodeURIComponent (p.2.getD "")))

end RequestBuilder

/-! ## Base64 and `setBasicAuth` -/

/-- Base64 alphabet. -/
def b64Char (v : Nat) : Char :=
  if v < 26 then Char.ofNat (65 + v)
  else if v < 52 then Char.ofNat (97 + (v - 26))
  else if v < 62 then Char.ofNat (48 + (v - 52))
  else if v = 62 then '+'
  else '/'

/-- Base64 encoding of a byte list with padding. -/
def b64Encode : List Nat → List Char
  | [] => []
  | [a] => [b64Char (a / 4), b64Char (a % 4 * 16), '=', '=']
  | [a, b] => [b64Char (a / 4), b64Char (a % 4 * 16 + b / 16), b64Char (b % 16 * 4), '=']
  | a :: b :: c :: rest =>
    b64Char (a / 4) :: b64Char (a % 4 * 16 + b / 16) ::
    b64Char (b % 16 * 4 + c / 64) :: b64Char (c % 64) :: b64Encode rest

/-- Model of `btoa` on strings of latin-1 code points. -/
def btoa (s : String) : String :=
  ⟨b64Encode (s.data.map Char.toNat)⟩

/-- Guard of `btoa`: it throws on any code point above 255. -/
def btoaOk (s : String) : Bool :=
  s.data.all (fun c => c.toNat < 256)

namespace RequestBuilder

/-- Convenience wrapper `setBasicAuth`; when `btoa` throws (a code point
above 255) the header call is never reached and the state is unchanged. -/
def setBasicAuth (b : RequestBuilder) (username password : String) : RequestBuilder :=
  if btoaOk (username ++ ":" ++ password) then
    b.afterSetHeader "Authorization" (some ("Basic " ++ btoa (username ++ ":" ++ password)))
  else b

end RequestBuilder

/-! ## Header aliasing model for clone independence

To state that the clone shares no mutable header state with its origin, the
builders live in an explicit store (a heap of builder states) addressed by
index; every mutating method acts on one index, and `clone` allocates a fresh
index holding a copy, exactly as `new RequestBuilder` allocates a fresh
object. -/

/-- Mutating header operations of the fluent interface. -/
inductive HeaderOp where
  | set (key : String) (value : Option String)
  | setMany (entries : List (String × Option String))
  | contentType (value : String)
  | bearerToken (token : String)
  | basicAuth (username password : String)
  | remove (key : String)
  | clear

/-- Builder state after invoking one header method (a thrown `setHeader`
leaves the state made so far, as in the source). -/
def applyOp (b : RequestBuilder) : HeaderOp → RequestBuilder
  | .set k v => b.afterSetHeader k v
  | .setMany es => b.setHeadersRun es
  | .contentType v => b.setContentType v
  | .bearerToken t => b.setBearerToken t
  | .basicAuth u p => b.setBasicAuth u p
  | .remove k => b.removeHeader k
  | .clear => b.clearHeaders

/-- Heap of live builder objects. -/
abbrev Store : Type := List RequestBuilder

/-- Builder stored at an index. -/
def getB (st : Store) (i : Nat) : Option RequestBuilder :=
  List.get? st i

/-- Replace the builder at an index (no effect on a dangling index). -/
def modifyAt : Store → Nat → (RequestBuilder → RequestBuilder) → Store
  | [], _, _ => []
  | b :: bs, 0, f => f b :: bs
  | b :: bs, i + 1, f => b :: modifyAt bs i f

/-- Run one header operation on the builder at an index. -/
def applyOpAt (st : Store) (i : Nat) (op : HeaderOp) : Store :=
  modifyAt st i (fun b => applyOp b op)

/-- Run a sequence of header operations on the builder at an index. -/
def applyOpsAt (st : Store) (i : Nat) (ops : List HeaderOp) : Store :=
  ops.foldl (fun s op => applyOpAt s i op) st

/-- Model of `clone()` on the heap: allocate a fresh object (at the first
free index) holding the cloned state; the original is untouched and the new
headers list is an independent spread copy. -/
def cloneAt (st : Store) (i : Nat) : Store :=
  match getB st i with
  | some b => st ++ [b.clone]
  | none => st

/-- Header lookup on an insertion-ordered mapping. -/
def lookupHeader (hs : List (String × String)) (k : String) : Option String :=
  (hs.find? (fun p => p.1 == k)).map Prod.snd

/-! ## Basic lemmas -/

theorem filter_not_isEmpty_eq_all {α : Type} (p : α → Bool) (l : List α) :
    (l.filter (fun a => !(p a))).isEmpty = l.all p := by
  induction l with
  | nil => rfl
  | cons a t ih => cases h : p a <;> simp [List.filter_cons, h, ih]

theorem lookup_overwrite (k v : String) : ∀ hs : List (String × String),
    hs.any (fun p => p.1 == k) = true →
    lookupHeader (hs.map (fun p => if p.1 == k then (p.1, v) else p)) k = some v := by
  intro hs
  induction hs with
  | nil => intro h; rw [List.any_nil] at h; exact Bool.noConfusion h
  | cons p t ih =>
    intro h
    unfold lookupHeader at ih ⊢
    rw [List.map_cons]
    by_cases hp : (p.1 == k) = true
    · rw [if_pos hp]
      simp only [List.find?_cons, hp]
      rfl
    · have hp' : (p.1 == k) = false := Bool.not_eq_true _ ▸ hp
      have ht : t.any (fun p => p.1 == k) = true := by
        rw [List.any_cons, hp', Bool.false_or] at h
        exact h
      rw [if_neg hp]
      simp only [List.find?_cons, hp']
      exact ih ht

theorem lookup_append_missing (k v : String) : ∀ hs : List (String × String),
    hs.any (fun p => p.1 == k) = false →
    lookupHeader (hs ++ [(k, v)]) k = some v := by
  intro hs
  induction hs with
  | nil =>
    intro _
    simp [lookupHeader]
  | cons p t ih =>
    intro h
    rw [List.any_cons, Bool.or_eq_false_iff] at h
    unfold lookupHeader at ih ⊢
    rw [List.cons_append]
    simp only [List.find?_cons, h.1]
    exact ih h.2

theorem lookupHeader_setKey_self (hs : List (String × String)) (k v : String) :
    lookupHeader (setKey hs k v) k = some v := by
  unfold setKey
  by_cases h : hs.any (fun p => p.1 == k) = true
  · rw [if_pos h]; exact lookup_overwrite k v hs h
  · rw [if_neg h]
    exact lookup_append_missing k v hs (Bool.not_eq_true _ ▸ h)

theorem lookup_overwrite_ne (k v k2 : String) (hne : k2 ≠ k) : ∀ hs : List (String × String),
    lookupHeader (hs.map (fun p => if p.1 == k then (p.1, v) else p)) k2
      = lookupHeader hs k2 := by
  intro hs
  induction hs with
  | nil => rfl
  | cons p t ih =>
    unfold lookupHeader at ih ⊢
    rw [List.map_cons]
    by_cases hp : (p.1 == k) = true
    · have hpk : p.1 = k := by simpa using hp
      have hpf : (p.1 == k2) = false := by
        simp only [beq_eq_false_iff_ne, ne_eq, hpk]
        exact Ne.symm hne
      rw [if_pos hp]
      simp only [List.find?_cons, hpf]
      exact ih
    · rw [if_neg hp]
      by_cases hp2 : (p.1 == k2) = true
      · simp only [List.find?_cons, hp2]
      · have hp2' : (p.1 == k2) = false := Bool.not_eq_true _ ▸ hp2
        simp only [List.find?_cons, hp2']
        exact ih

theorem lookup_append_ne (k v k2 : String) (hne : k2 ≠ k) : ∀ hs : List (String × String),
    lookupHeader (hs ++ [(k, v)]) k2 = lookupHeader hs k2 := by
  intro hs
  induction hs with
  | nil =>
    have : (k == k2) = false := by
      simp only [beq_eq_false_iff_ne, ne_eq]
      exact Ne.symm hne
    unfold lookupHeader
    rw [List.nil_append]
    simp only [List.find?_cons, this]
  | cons p t ih =>
    unfold lookupHeader at ih ⊢
    rw [List.cons_append]
    by_cases hp2 : (p.1 == k2) = true
    · simp only [List.find?_cons, hp2]
    · have hp2' : (p.1 == k2) = false := Bool.not_eq_true _ ▸ hp2
      simp only [List.find?_cons, hp2']
      exact ih

theorem lookupHeader_setKey_ne (hs : List (String × String)) (k v k2 : String)
    (hne : k2 ≠ k) : lookupHeader (setKey hs k v) k2 = lookupHeader hs k2 := by
  unfold setKey
  by_cases h : hs.any (fun p => p.1 == k) = true
  · rw [if_pos h]; exact lookup_overwrite_ne k v k2 hne hs
  · rw [if_neg h]; exact lookup_append_ne k v k2 hne hs

theorem getB_modifyAt_ne : ∀ (st : Store) (i j : Nat) (f : RequestBuilder → RequestBuilder),
    j ≠ i → getB (modifyAt st i f) j = getB st j := by
  intro st
  induction st with
  | nil => intro i j f _; cases i <;> rfl
  | cons b bs ih =>
    intro i j f hne
    cases i with
    | zero =>
      cases j with
      | zero => exact absurd rfl hne
      | succ j2 => rfl
    | succ i2 =>
      cases j with
      | zero => rfl
      | succ j2 => exact ih i2 j2 f (fun e => hne (by rw [e]))

theorem getB_applyOpsAt_ne : ∀ (ops : List HeaderOp) (st : Store) (i j : Nat),
    j ≠ i → getB (applyOpsAt st i ops) j = getB st j := by
  intro ops
  induction ops with
  | nil => intro st i j _; rfl
  | cons op t ih =>
    intro st i j hne
    show getB (applyOpsAt (applyOpAt st i op) i t) j = getB st j
    rw [ih (applyOpAt st i op) i j hne]
    exact getB_modifyAt_ne st i j (fun b => applyOp b op) hne

theorem getB_append_one (st : Store) (x : RequestBuilder) :
    getB (st ++ [x]) st.length = some x := by
  induction st with
  | nil => rfl
  | cons b bs ih => simp only [List.cons_append, List.length_cons]; exact ih

theorem getB_append_lt (st : Store) (x : RequestBuilder) : ∀ j, j < st.length →
    getB (st ++ [x]) j = getB st j := by
  induction st with
  | nil => intro j hj; exact absurd hj (by simp)
  | cons b bs ih =>
    intro j hj
    cases j with
    | zero => rfl
    | succ j2 => exact ih j2 (by simpa using hj)

/-! ## Claim theorems: request builder -/

/-- C7: the header mapping holds exactly the two default JSON headers after
construction and after `clearHeaders`, so a Content-Type entry and an Accept
entry are always present at those points, and `clearHeaders` discards every
custom entry. -/
theorem defaultHeaders_invariant : ∀ (b : String) (r : RequestBuilder),
    (RequestBuilder.init b).headers = defaultHeaders
    ∧ r.clearHeaders.headers = defaultHeaders
    ∧ lookupHeader (RequestBuilder.init b).headers "Content-Type" = some ContentTypeJSON
    ∧ lookupHeader (RequestBuilder.init b).headers "Accept" = some ContentTypeJSON
    ∧ lookupHeader r.clearHeaders.headers "Content-Type" = some ContentTypeJSON
    ∧ lookupHeader r.clearHeaders.headers "Accept" = some ContentTypeJSON :=
  fun _ _ =>
    ⟨rfl, rfl,
     (by decide : lookupHeader defaultHeaders "Content-Type" = some ContentTypeJSON),
     (by decide : lookupHeader defaultHeaders "Accept" = some ContentTypeJSON),
     (by decide : lookupHeader defaultHeaders "Content-Type" = some ContentTypeJSON),
     (by decide : lookupHeader defaultHeaders "Accept" = some ContentTypeJSON)⟩

/-- C2 counterexample: on the valid absolute URL `https://api.example.com`
(no trailing slash), `buildUrl("")` returns the base with an extra slash
appended, not the base stripped of one trailing slash (which is the base
itself). -/
theorem buildUrl_empty_endpoint_counterexample :
    (RequestBuilder.init "https://api.example.com").buildUrl "" none = "https://api.example.com/"
    ∧ stripTrailingSlash "https://api.example.com" = "https://api.example.com"
    ∧ ("https://api.example.com/" : String) ≠ "https://api.example.com" :=
  ⟨by decide, by decide, by decide⟩

/-- C2 amended: for every base string, `buildUrl("")` with no query params
returns the stored base endpoint (the input stripped of exactly one trailing
slash) with a single `/` appended, because the endpoint normalization always
prepends a slash to the empty endpoint. -/
theorem buildUrl_empty_endpoint_amended : ∀ b : String,
    (RequestBuilder.init b).buildUrl "" none = stripTrailingSlash b ++ "/" :=
  fun _ => rfl

/-- C4: `setHeader` fails with InvalidHeaderKey exactly on blank keys, fails
with InvalidHeaderValue on an absent value, otherwise inserts or overwrites
the entry in place (other keys and the base URL are untouched); a failing
call leaves the builder exactly as it was. -/
theorem setHeader_spec : ∀ (b : RequestBuilder) (key : String) (value : Option String),
    (jsTrim key = "" → b.setHeader key value = .error .invalidHeaderKey)
    ∧ (jsTrim key ≠ "" → value = none → b.setHeader key value = .error .invalidHeaderValue)
    ∧ (∀ v, jsTrim key ≠ "" → value = some v →
        b.setHeader key value = .ok { b with headers := setKey b.headers key v }
        ∧ lookupHeader (b.afterSetHeader key value).headers key = some v
        ∧ (∀ k2, k2 ≠ key →
            lookupHeader (b.afterSetHeader key value).headers k2 = lookupHeader b.headers k2)
        ∧ (b.afterSetHeader key value).baseUrl = b.baseUrl)
    ∧ (∀ e, b.setHeader key value = .error e → b.afterSetHeader key value = b) := by
  intro b key value
  refine ⟨?_, ?_, ?_, ?_⟩
  · intro h
    simp [RequestBuilder.setHeader, h]
  · intro h hv
    have hk : key ≠ "" := fun e => h (by rw [e]; rfl)
    subst hv
    simp [RequestBuilder.setHeader, hk, h]
  · intro v h hv
    have hk : key ≠ "" := fun e => h (by rw [e]; rfl)
    subst hv
    have hset : b.setHeader key (some v) = .ok { b with headers := setKey b.headers key v } := by
      simp [RequestBuilder.setHeader, hk, h]
    have hafter : b.afterSetHeader key (some v) = { b with headers := setKey b.headers key v } := by
      simp [RequestBuilder.afterSetHeader, hset]
    refine ⟨hset, ?_, ?_, ?_⟩
    · rw [hafter]; exact lookupHeader_setKey_self b.headers key v
    · intro k2 hne; rw [hafter]; exact lookupHeader_setKey_ne b.headers key v k2 hne
    · rw [hafter]
  · intro e he
    simp [RequestBuilder.afterSetHeader, he]

/-- C4 witness: concrete instances of each branch of `setHeader_spec`. -/
theorem setHeader_spec_witness :
    (RequestBuilder.init "https://api.example.com").setHeader "  " (some "x")
        = .error .invalidHeaderKey
    ∧ (RequestBuilder.init "https://api.example.com").setHeader "X-Api-Key" none
        = .error .invalidHeaderValue
    ∧ lookupHeader ((RequestBuilder.init "https://api.example.com").afterSetHeader
        "Authorization" (some "Bearer abc")).headers "Authorization" = some "Bearer abc"
    ∧ (RequestBuilder.init "https://api.example.com").afterSetHeader "X-Api-Key" none
        = RequestBuilder.init "https://api.example.com" :=
  ⟨(setHeader_spec _ "  " (some "x")).1 (by decide),
   (setHeader_spec _ "X-Api-Key" none).2.1 (by decide) rfl,
   ((setHeader_spec _ "Authorization" (some "Bearer abc")).2.2.1 "Bearer abc"
     (by decide) rfl).2.1,
   (setHeader_spec _ "X-Api-Key" none).2.2.2 .invalidHeaderValue
     ((setHeader_spec _ "X-Api-Key" none).2.1 (by decide) rfl)⟩

/-- C5 counterexample: the claim asserts the clone keeps the same base
endpoint, but `clone` runs the constructor again on the stored base, which
strips a second trailing slash: from the valid URL `https://x.com//` the
original stores `https://x.com/` while its clone stores `https://x.com`. -/
theorem clone_counterexample :
    (RequestBuilder.init "https://x.com//").baseUrl = "https://x.com/"
    ∧ (RequestBuilder.clone (RequestBuilder.init "https://x.com//")).baseUrl = "https://x.com"
    ∧ (RequestBuilder.clone (RequestBuilder.init "https://x.com//")).baseUrl
        ≠ (RequestBuilder.init "https://x.com//").baseUrl :=
  ⟨by decide, by decide, by decide⟩

/-- C5 amended: `clone` allocates a fresh builder whose base endpoint is the
original base with one more trailing slash stripped (hence identical whenever
the stored base does not end in a slash) and an independent copy of the header
mapping: any sequence of header operations on the clone leaves the header
state of every pre-existing builder unchanged, and any sequence on a
pre-existing builder leaves the clone unchanged. -/
theorem clone_spec_amended : ∀ (st : Store) (i : Nat) (b : RequestBuilder)
    (ops ops2 : List HeaderOp) (j : Nat),
    getB st i = some b →
    getB (cloneAt st i) st.length = some b.clone
    ∧ b.clone.headers = b.getHeaders
    ∧ b.clone.baseUrl = stripTrailingSlash b.baseUrl
    ∧ (j < st.length →
        (getB (applyOpsAt (cloneAt st i) st.length ops) j).map RequestBuilder.getHeaders
          = (getB st j).map RequestBuilder.getHeaders)
    ∧ (j < st.length →
        getB (applyOpsAt (cloneAt st i) j ops2) st.length = some b.clone) := by
  intro st i b ops ops2 j hb
  have hclone : cloneAt st i = st ++ [b.clone] := by
    simp [cloneAt, hb]
  refine ⟨?_, rfl, rfl, ?_, ?_⟩
  · rw [hclone]; exact getB_append_one st b.clone
  · intro hj
    rw [hclone, getB_applyOpsAt_ne ops (st ++ [b.clone]) st.length j (Nat.ne_of_lt hj),
      getB_append_lt st b.clone j hj]
  · intro hj
    rw [hclone, getB_applyOpsAt_ne ops2 (st ++ [b.clone]) j st.length (Nat.ne_of_gt hj)]
    exact getB_append_one st b.clone

/-- C5 witness: a one-builder heap; mutating the freshly cloned builder does
not change the header state observable on the original. -/
theorem clone_spec_amended_witness :
    (getB (applyOpsAt (cloneAt [RequestBuilder.init "https://api.example.com"] 0) 1
        [.set "X-Trace" (some "1"), .clear]) 0).map RequestBuilder.getHeaders
      = (getB [RequestBuilder.init "https://api.example.com"] 0).map RequestBuilder.getHeaders :=
  (clone_spec_amended [RequestBuilder.init "https://api.example.com"] 0
    (RequestBuilder.init "https://api.example.com")
    [.set "X-Trace" (some "1"), .clear] [] 0 rfl).2.2.2.1 (by decide)

/-- C6: with a non-empty query mapping, `buildUrl` drops every pair whose
value is null, absent or empty; if nothing survives it returns the bare path
(the same string the call without query params returns), otherwise the path,
one `?`, and the surviving pairs percent-encoded `key=value`, joined with `&`
in insertion order. -/
theorem buildUrl_query_spec : ∀ (b : RequestBuilder) (endpoint : String)
    (ps : List (String × Option String)),
    ps ≠ [] →
    b.buildUrl endpoint (some ps) =
      (if (ps.filter (fun p => keepParam p.2)).isEmpty then b.buildUrl endpoint none
       else b.buildUrl endpoint none ++ "?" ++
         String.intercalate "&" ((ps.filter (fun p => keepParam p.2)).map (fun p =>
           encodeURIComponent p.1 ++ "=" ++ encodeURIComponent (p.2.getD "")))) := by
  intro b endpoint ps hne
  have hlen : ¬ ps.length = 0 := by simpa [List.length_eq_zero] using hne
  by_cases hf : (ps.filter (fun p => keepParam p.2)).isEmpty
  · have : (ps.filter (fun p => keepParam p.2)).length = 0 := by
      simpa [List.isEmpty_iff, List.length_eq_zero] using hf
    simp [RequestBuilder.buildUrl, hlen, this, hf]
  · have : ¬ (ps.filter (fun p => keepParam p.2)).length = 0 := by
      simpa [List.isEmpty_iff, List.length_eq_zero] using hf
    simp [RequestBuilder.buildUrl, hlen, this, hf]

/-- C6 witness: a concrete four-parameter mapping with one empty and one
absent value. -/
theorem buildUrl_query_spec_witness :
    (RequestBuilder.init "https://api.example.com").buildUrl "/posts"
        (some [("userId", some "1"), ("q", some ""), ("flag", none), ("limit", some "10")]) =
      (if ([("userId", some "1"), ("q", some ""), ("flag", none),
            ("limit", some "10")].filter (fun p => keepParam p.2)).isEmpty then
        (RequestBuilder.init "https://api.example.com").buildUrl "/posts" none
       else (RequestBuilder.init "https://api.example.com").buildUrl "/posts" none ++ "?" ++
         String.intercalate "&" (([("userId", some "1"), ("q", some ""), ("flag", none),
             ("limit", some "10")].filter (fun p => keepParam p.2)).map (fun p =>
           encodeURIComponent p.1 ++ "=" ++ encodeURIComponent (p.2.getD "")))) :=
  buildUrl_query_spec (RequestBuilder.init "https://api.example.com") "/posts"
    [("userId", some "1"), ("q", some ""), ("flag", none), ("limit", some "10")] (by decide)

/-! ## Claim theorems: response validator -/

/-- C9: the threshold check rejects any negative duration or threshold and is
otherwise the non-strict comparison, so equality of duration and threshold
passes. -/
theorem meetsPerformanceThresholds_spec : ∀ (rt th : Rat),
    ((rt < 0 ∨ th < 0) → ResponseValidator.meetsPerformanceThresholds rt th = false)
    ∧ (0 ≤ rt → 0 ≤ th →
        (ResponseValidator.meetsPerformanceThresholds rt th = true ↔ rt ≤ th))
    ∧ (0 ≤ rt → ResponseValidator.meetsPerformanceThresholds rt rt = true) := by
  intro rt th
  refine ⟨?_, ?_, ?_⟩
  · intro h
    rcases h with h | h <;> simp [ResponseValidator.meetsPerformanceThresholds, h]
  · intro h1 h2
    simp [ResponseValidator.meetsPerformanceThresholds, not_lt.2 h1, not_lt.2 h2]
  · intro h1
    simp [ResponseValidator.meetsPerformanceThresholds, not_lt.2 h1]

/-- C9 witness: concrete boundary and rejection instances. -/
theorem meetsPerformanceThresholds_spec_witness :
    ResponseValidator.meetsPerformanceThresholds (-1) 5 = false
    ∧ (ResponseValidator.meetsPerformanceThresholds 450 500 = true ↔ (450 : Rat) ≤ 500)
    ∧ ResponseValidator.meetsPerformanceThresholds 500 500 = true :=
  ⟨(meetsPerformanceThresholds_spec (-1) 5).1 (Or.inl (by norm_num)),
   (meetsPerformanceThresholds_spec 450 500).2.1 (by norm_num) (by norm_num),
   (meetsPerformanceThresholds_spec 500 500).2.2 (by norm_num)⟩

/-- C10: an array body passes the object guard of `hasRequiredFields`, so
every field is tested for key presence on the array itself; in particular the
field list `["length"]` validates on any array. -/
theorem hasRequiredFields_array_spec : ∀ (xs : List JsValue) (fields : List String),
    (ResponseValidator.hasRequiredFields (.arr xs) fields).missing
        = fields.filter (fun f => !(keyIn f (.arr xs)))
    ∧ (ResponseValidator.hasRequiredFields (.arr xs) fields).valid
        = fields.all (fun f => keyIn f (.arr xs))
    ∧ ResponseValidator.hasRequiredFields (.arr xs) ["length"] = ⟨true, []⟩ := by
  intro xs fields
  refine ⟨rfl, ?_, rfl⟩
  exact filter_not_isEmpty_eq_all (fun f => keyIn f (.arr xs)) fields

/-- C1: the aggregate validator ignores its duration parameter entirely, its
`valid` flag is true exactly when the collected error list is empty, and that
list consists of exactly the status failure, the body failure and the
missing-fields failure, each contributed independently. -/
theorem validateResponse_spec : ∀ (sc : Int) (body : JsValue)
    (rf : Option (List String)) (d d2 : Option Rat),
    ResponseValidator.validateResponse sc body rf d
        = ResponseValidator.validateResponse sc body rf d2
    ∧ ((ResponseValidator.validateResponse sc body rf d).valid = true
        ↔ (ResponseValidator.validateResponse sc body rf d).errors = [])
    ∧ (ResponseValidator.validateResponse sc body rf d).errors =
        (if ResponseValidator.isSuccessful sc then []
         else ["Invalid status code: " ++ intToString sc])
        ++ (if ResponseValidator.hasResponseBody body then [] else [EMPTY_RESPONSE])
        ++ (match rf with
            | some fields =>
              if !fields.isEmpty && !(ResponseValidator.hasRequiredFields body fields).valid then
                ["Missing required fields: " ++
                  String.intercalate ", " (ResponseValidator.hasRequiredFields body fields).missing]
              else []
            | none => []) := by
  intro sc body rf d d2
  refine ⟨rfl, ?_, ?_⟩
  · simp [ResponseValidator.validateResponse, List.isEmpty_iff]
  · simp only [ResponseValidator.validateResponse]
    cases hs : ResponseValidator.isSuccessful sc
      <;> cases hb : ResponseValidator.hasResponseBody body
      <;> cases rf with
      | none => simp
      | some fields =>
        cases fields with
        | nil => simp
        | cons f t =>
          cases hv : (ResponseValidator.hasRequiredFields body (f :: t)).valid <;>
            simp [hv, Nat.succ_ne_zero]

/-- Helper: on an object-like response, `hasExpectedType` always returns a
boolean instead of throwing. -/
theorem hasExpectedType_ok_of_objectLike (resp : JsValue) (h : isObjectLike resp = true)
    (field expectedType : String) :
    ∃ bv, ResponseValidator.hasExpectedType resp field expectedType = .ok bv := by
  cases hk : keyIn field resp
  · exact ⟨false, by simp [ResponseValidator.hasExpectedType, jsIn, h, hk]⟩
  · exact ⟨(if isArrayV (getField resp field) then "array" else jsTypeof (getField resp field))
      == expectedType, by simp [ResponseValidator.hasExpectedType, jsIn, h, hk]⟩

/-- Helper: the error-collecting fold of `validateSchema` succeeds on an
object-like response. -/
theorem schema_fold_ok (resp : JsValue) (h : isObjectLike resp = true) :
    ∀ (schema : List (String × String)) (acc : List String),
    ∃ l, List.foldlM (fun acc fe => do
        let ok ← ResponseValidator.hasExpectedType resp fe.1 fe.2
        pure (if ok then acc
          else acc ++ ["Field \x27" ++ fe.1 ++ "\x27 validation failed"])) acc schema
      = Except.ok l := by
  intro schema
  induction schema with
  | nil => intro acc; exact ⟨acc, rfl⟩
  | cons fe t ih =>
    intro acc
    obtain ⟨bv, hbv⟩ := hasExpectedType_ok_of_objectLike resp h fe.1 fe.2
    obtain ⟨l, hl⟩ :=
      ih (if bv then acc else acc ++ ["Field \x27" ++ fe.1 ++ "\x27 validation failed"])
    refine ⟨l, ?_⟩
    simp only [List.foldlM_cons, hbv]
    simpa [Bind.bind, Except.bind] using hl

/-- C3 counterexample: `hasExpectedType` applied to a null response evaluates
the `in` operator on null and the TypeError propagates, so the validator is
not exception-free on every input. -/
theorem hasExpectedType_null_throws :
    ResponseValidator.hasExpectedType .null "id" "number" = .error .typeError := rfl

/-- C3 amended: every Response Validator function is total and returns a
negative result on malformed input instead of throwing, with the single
exception of `hasExpectedType` and of `validateSchema` with a non-empty
schema, which raise a TypeError exactly when the response is null or a
primitive (the unguarded `in` operator); on object-like responses they never
throw either. -/
theorem validator_total_amended : ∀ (resp : JsValue) (field expectedType : String)
    (schema : List (String × String)) (fields : List String),
    (isObjectLike resp = true →
      ∃ bv, ResponseValidator.hasExpectedType resp field expectedType = .ok bv)
    ∧ (isObjectLike resp = false →
        ResponseValidator.hasExpectedType resp field expectedType = .error .typeError)
    ∧ (isObjectLike resp = true → ∃ r, ResponseValidator.validateSchema resp schema = .ok r)
    ∧ (isObjectLike resp = false → schema ≠ [] →
        ResponseValidator.validateSchema resp schema = .error .typeError)
    ∧ ResponseValidator.validateSchema resp [] = .ok ⟨true, "Schema validation passed", []⟩
    ∧ (isObjectLike resp = false →
        ResponseValidator.hasRequiredFields resp fields = ⟨false, fields⟩) := by
  intro resp field expectedType schema fields
  refine ⟨?_, ?_, ?_, ?_, rfl, ?_⟩
  · intro h
    exact hasExpectedType_ok_of_objectLike resp h field expectedType
  · intro h
    simp [ResponseValidator.hasExpectedType, jsIn, h]
  · intro h
    obtain ⟨l, hl⟩ := schema_fold_ok resp h schema []
    refine ⟨⟨l.isEmpty,
      if l.isEmpty then "Schema validation passed" else "Schema validation failed", l⟩, ?_⟩
    simp only [ResponseValidator.validateSchema, hl]
    simp only [Bind.bind, Except.bind]
    rfl
  · intro h hs
    cases schema with
    | nil => exact absurd rfl hs
    | cons fe t =>
      have he : ResponseValidator.hasExpectedType resp fe.1 fe.2 = .error .typeError := by
        simp [ResponseValidator.hasExpectedType, jsIn, h]
      simp [ResponseValidator.validateSchema, List.foldlM_cons, he, Bind.bind, Except.bind]
  · intro h
    simp [ResponseValidator.hasRequiredFields, h]

/-- C3 witness: concrete throwing and degrading instances. -/
theorem validator_total_amended_witness :
    ResponseValidator.hasExpectedType .null "a" "string" = .error .typeError
    ∧ ResponseValidator.validateSchema .null [("a", "string")] = .error .typeError
    ∧ ResponseValidator.hasRequiredFields (.str "x") ["id"] = ⟨false, ["id"]⟩
    ∧ (∃ bv, ResponseValidator.hasExpectedType (.obj [("a", .str "b")]) "a" "string" = .ok bv) :=
  ⟨(validator_total_amended .null "a" "string" [("a", "string")] ["id"]).2.1 rfl,
   (validator_total_amended .null "a" "string" [("a", "string")] ["id"]).2.2.2.1 rfl
     (by decide),
   (validator_total_amended (.str "x") "a" "string" [] ["id"]).2.2.2.2.2 rfl,
   (validator_total_amended (.obj [("a", .str "b")]) "a" "string" [] ["id"]).1 rfl⟩


/-! ## Lemmas for the JSON round trip: numbers -/

theorem headNotDig_nil : headNotDig [] := trivial

theorem headNotDig_cons (c : Char) (l : List Char) (h : isDig c = false) :
    headNotDig (c :: l) := h

theorem headNotDig_head (c : Char) (t : List Char) (h : headNotDig (c :: t)) :
    isDig c = false := h

theorem digitsRevAux_lt : ∀ f n d, d ∈ digitsRevAux f n → d < 10 := by
  intro f
  induction f with
  | zero => intro n d h; simp [digitsRevAux] at h
  | succ f2 ih =>
    intro n d h
    by_cases hn : n = 0
    · simp [digitsRevAux, hn] at h
    · simp only [digitsRevAux, if_neg hn, List.mem_cons] at h
      rcases h with h | h
      · omega
      · exact ih _ _ h

theorem digitsRevAux_decVal : ∀ f n, n ≤ f → decVal (digitsRevAux f n) = n := by
  intro f
  induction f with
  | zero =>
    intro n h
    have hn : n = 0 := by omega
    subst hn
    rfl
  | succ f2 ih =>
    intro n h
    by_cases hn : n = 0
    · subst hn; rfl
    · simp only [digitsRevAux, if_neg hn, decVal]
      rw [ih (n / 10) (by omega)]
      omega

theorem natRepr_all_dig (n : Nat) : ∀ c ∈ natRepr n, isDig c = true := by
  intro c hc
  unfold natRepr at hc
  by_cases hn : n = 0
  · rw [if_pos hn] at hc
    simp at hc
    subst hc
    decide
  · rw [if_neg hn] at hc
    simp only [List.mem_map, List.mem_reverse] at hc
    obtain ⟨d, hd, rfl⟩ := hc
    have hd10 : d < 10 := digitsRevAux_lt n n d hd
    interval_cases d <;> decide

theorem natRepr_ne_nil (n : Nat) : natRepr n ≠ [] := by
  unfold natRepr
  by_cases hn : n = 0
  · simp [hn]
  · rw [if_neg hn]
    have hda : digitsRevAux n n ≠ [] := by
      cases n with
      | zero => exact absurd rfl hn
      | succ m => simp [digitsRevAux]
    rcases hda2 : digitsRevAux n n with _ | ⟨d, ds⟩
    · exact absurd hda2 hda
    · intro hEq
      rw [show digitsRev n = digitsRevAux n n from rfl, hda2] at hEq
      simp at hEq

theorem split_digits (l rest : List Char) (hl : ∀ c ∈ l, isDig c = true)
    (hr : headNotDig rest) :
    (l ++ rest).takeWhile isDig = l ∧ (l ++ rest).dropWhile isDig = rest := by
  induction l with
  | nil =>
    constructor
    · cases rest with
      | nil => rfl
      | cons c t => simp [List.takeWhile_cons, headNotDig_head c t hr]
    · cases rest with
      | nil => rfl
      | cons c t => simp [List.dropWhile_cons, headNotDig_head c t hr]
  | cons c t ih =>
    have hc : isDig c = true := hl c (by simp)
    have iht := ih (fun c2 h2 => hl c2 (by simp [h2]))
    constructor
    · simp [List.takeWhile_cons, hc, iht.1]
    · simp [List.dropWhile_cons, hc, iht.2]

theorem foldl_digits (ds : List Nat) (hd : ∀ d ∈ ds, d < 10) : ∀ a : Nat,
    (ds.map digitCh).foldl (fun x c => x * 10 + (c.toNat - 48)) a
      = ds.foldl (fun x d => x * 10 + d) a := by
  induction ds with
  | nil => intro a; rfl
  | cons d t ih =>
    intro a
    have h10 : d < 10 := hd d (by simp)
    have hch : (digitCh d).toNat - 48 = d := by interval_cases d <;> rfl
    simp only [List.map_cons, List.foldl_cons, hch]
    exact ih (fun d2 hm => hd d2 (by simp [hm])) _

theorem foldl_rev_decVal (ds : List Nat) : ∀ a : Nat,
    ds.reverse.foldl (fun x d => x * 10 + d) a = a * 10 ^ ds.length + decVal ds := by
  induction ds with
  | nil => intro a; simp [decVal]
  | cons d t ih =>
    intro a
    simp only [List.reverse_cons, List.foldl_append, ih, List.foldl_cons, List.foldl_nil,
      decVal, List.length_cons]
    ring

theorem decValChars_natRepr (n : Nat) :
    (natRepr n).foldl (fun a c => a * 10 + (c.toNat - 48)) 0 = n := by
  unfold natRepr
  by_cases hn : n = 0
  · rw [if_pos hn]; subst hn; rfl
  · rw [if_neg hn]
    rw [foldl_digits ((digitsRev n).reverse)
      (fun d hd => digitsRevAux_lt n n d (by simpa [digitsRev] using hd))]
    rw [foldl_rev_decVal]
    show 0 * 10 ^ (digitsRevAux n n).length + decVal (digitsRevAux n n) = n
    rw [digitsRevAux_decVal n n le_rfl]
    ring

theorem parseNat_natRepr (n : Nat) (rest : List Char) (hr : headNotDig rest) :
    parseNat (natRepr n ++ rest) = some (n, rest) := by
  obtain ⟨ht, hdrop⟩ := split_digits (natRepr n) rest (natRepr_all_dig n) hr
  have hne2 : (natRepr n).isEmpty = false := by
    cases hrep : natRepr n with
    | nil => exact absurd hrep (natRepr_ne_nil n)
    | cons c t => rfl
  simp only [parseNat, ht, hdrop, hne2, Bool.false_eq_true, if_false]
  rw [decValChars_natRepr]

/-! ## Lemmas for the JSON round trip: strings and escapes -/

theorem hexVal_hexL (d : Nat) (h : d < 16) : hexVal (hexL d) = some d := by
  interval_cases d <;> rfl

theorem escapeChar_length_pos (c : Char) : 1 ≤ (escapeChar c).length := by
  unfold escapeChar
  split_ifs <;> simp

theorem parseStringBody_escape : ∀ (cs rest : List Char) (f : Nat),
    (escapeList cs).length + 1 ≤ f →
    parseStringBody f (escapeList cs ++ '"' :: rest) = some (cs, rest) := by
  intro cs
  induction cs with
  | nil =>
    intro rest f hf
    cases f with
    | zero => omega
    | succ f2 => simp [escapeList, parseStringBody]
  | cons c cs ih =>
    intro rest f hf
    rw [show escapeList (c :: cs) = escapeChar c ++ escapeList cs from rfl] at hf ⊢
    cases f with
    | zero =>
      have := escapeChar_length_pos c
      rw [List.length_append] at hf
      omega
    | succ f2 =>
      have hf2 : (escapeList cs).length + 1 ≤ f2 := by
        have := escapeChar_length_pos c
        rw [List.length_append] at hf
        omega
      have ihr := ih rest f2 hf2
      unfold escapeChar
      by_cases h1 : c = '"'
      · subst h1
        simp [parseStringBody, List.append_assoc, ihr, parseStringBody.mapCons]
      · rw [if_neg h1]
        by_cases h2 : c = '\\'
        · subst h2
          simp [parseStringBody, List.append_assoc, ihr, parseStringBody.mapCons]
        · rw [if_neg h2]
          by_cases h3 : c = '\x08'
          · subst h3
            simp [parseStringBody, List.append_assoc, ihr, parseStringBody.mapCons]
          · rw [if_neg h3]
            by_cases h4 : c = '\x0c'
            · subst h4
              simp [parseStringBody, List.append_assoc, ihr, parseStringBody.mapCons]
            · rw [if_neg h4]
              by_cases h5 : c = '\n'
              · subst h5
                simp [parseStringBody, List.append_assoc, ihr, parseStringBody.mapCons]
              · rw [if_neg h5]
                by_cases h6 : c = '\r'
                · subst h6
                  simp [parseStringBody, List.append_assoc, ihr, parseStringBody.mapCons]
                · rw [if_neg h6]
                  by_cases h7 : c = '\t'
                  · subst h7
                    simp [parseStringBody, List.append_assoc, ihr, parseStringBody.mapCons]
                  · rw [if_neg h7]
                    by_cases h8 : c.toNat < 32
                    · rw [if_pos h8]
                      have h0 : hexVal '0' = some 0 := rfl
                      have ha : hexVal (hexL (c.toNat / 16)) = some (c.toNat / 16) :=
                        hexVal_hexL _ (by omega)
                      have hb : hexVal (hexL (c.toNat % 16)) = some (c.toNat % 16) :=
                        hexVal_hexL _ (by omega)
                      have hn : ((0 * 16 + 0) * 16 + c.toNat / 16) * 16 + c.toNat % 16
                          = c.toNat := by omega
                      have hn3 : c.toNat / 16 * 16 + c.toNat % 16 = c.toNat := by omega
                      have hg2 : c.toNat < 55296 ∨ 57344 ≤ c.toNat := by omega
                      simp [parseStringBody, List.append_assoc, h0, ha, hb, hn, hn3, hg2,
                        Char.ofNat_toNat, ihr, parseStringBody.mapCons]
                    · rw [if_neg h8]
                      simp [parseStringBody, List.append_assoc, h1, h2, h8, ihr,
                        parseStringBody.mapCons]

/-! ## Lemmas for the JSON round trip: stream heads -/

theorem skipWs_cons_not_ws (c : Char) (l : List Char) (h : isWs c = false) :
    skipWs (c :: l) = c :: l := by
  simp [skipWs, List.dropWhile_cons, h]

theorem isDig_char_facts (c : Char) (h : isDig c = true) :
    isWs c = false ∧ c ≠ 'n' ∧ c ≠ 't' ∧ c ≠ 'f' ∧ c ≠ '"' ∧ c ≠ '-' ∧ c ≠ '['
      ∧ c ≠ '{' ∧ c ≠ ']' ∧ c ≠ '}' := by
  refine ⟨?_, ?_, ?_, ?_, ?_, ?_, ?_, ?_, ?_, ?_⟩
  · cases hw : isWs c with
    | false => rfl
    | true =>
      exfalso
      simp only [isWs, Bool.or_eq_true, decide_eq_true_eq] at hw
      rcases hw with ((h1 | h1) | h1) | h1 <;> subst h1 <;> exact absurd h (by decide)
  all_goals intro hEq
  all_goals subst hEq
  all_goals exact absurd h (by decide)

theorem intRepr_ne_nil (n : Int) : intRepr n ≠ [] := by
  unfold intRepr
  by_cases hn : n < 0
  · rw [if_pos hn]; simp
  · rw [if_neg hn]; exact natRepr_ne_nil _

theorem stringify_ne_nil : ∀ x : Json, Json.stringify x ≠ [] := by
  intro x
  cases x with
  | null => simp [Json.stringify]
  | bool b => cases b <;> simp [Json.stringify]
  | num n => simp only [Json.stringify]; exact intRepr_ne_nil n
  | str s => simp [Json.stringify]
  | arr xs => cases xs <;> simp [Json.stringify]
  | obj ms => cases ms <;> simp [Json.stringify]

theorem stringify_head : ∀ x : Json, ∃ c r, Json.stringify x = c :: r
    ∧ isWs c = false ∧ c ≠ ']' ∧ c ≠ '}' := by
  intro x
  cases x with
  | null =>
    exact ⟨'n', ['u', 'l', 'l'], by simp [Json.stringify], by decide, by decide, by decide⟩
  | bool b =>
    cases b with
    | true =>
      exact ⟨'t', ['r', 'u', 'e'], by simp [Json.stringify], by decide, by decide, by decide⟩
    | false =>
      exact ⟨'f', ['a', 'l', 's', 'e'], by simp [Json.stringify],
        by decide, by decide, by decide⟩
  | str s =>
    exact ⟨'"', escapeList s.data ++ ['"'], by simp [Json.stringify],
      by decide, by decide, by decide⟩
  | arr xs =>
    cases xs with
    | nil => exact ⟨'[', [']'], by simp [Json.stringify], by decide, by decide, by decide⟩
    | cons y ys =>
      exact ⟨'[', (Json.stringify y ++ emitRest ys) ++ [']'], by simp [Json.stringify],
        by decide, by decide, by decide⟩
  | obj ms =>
    cases ms with
    | nil => exact ⟨'{', ['}'], by simp [Json.stringify], by decide, by decide, by decide⟩
    | cons m t =>
      exact ⟨'{', (emitMember m ++ emitMembersRest t) ++ ['}'], by simp [Json.stringify],
        by decide, by decide, by decide⟩
  | num n =>
    by_cases hn : n < 0
    · refine ⟨'-', natRepr n.natAbs, ?_, by decide, by decide, by decide⟩
      simp only [Json.stringify, intRepr, if_pos hn]
    · rcases hrep : natRepr n.natAbs with _ | ⟨c, r⟩
      · exact absurd hrep (natRepr_ne_nil _)
      · have hc : isDig c = true := natRepr_all_dig n.natAbs c (by rw [hrep]; simp)
        obtain ⟨hws, _, _, _, _, _, _, _, hne1, hne2⟩ := isDig_char_facts c hc
        refine ⟨c, r, ?_, hws, hne1, hne2⟩
        simp only [Json.stringify, intRepr, if_neg hn, hrep]

/-! ## Lemmas for the JSON round trip: object member collapse -/

theorem setKey_append (acc : List (String × Json)) (k : String) (v : Json)
    (h : acc.any (fun q => q.1 == k) = false) : setKey acc k v = acc ++ [(k, v)] := by
  unfold setKey
  rw [if_neg (by simp [h])]

theorem foldl_setKey_append : ∀ (l acc : List (String × Json)),
    (∀ m ∈ l, acc.any (fun q => q.1 == m.1) = false) →
    distinctKeys (l.map Prod.fst) = true →
    l.foldl (fun a m => setKey a m.1 m.2) acc = acc ++ l := by
  intro l
  induction l with
  | nil => intro acc _ _; simp
  | cons m t ih =>
    intro acc hdisj hkeys
    have hkeys' := hkeys
    simp only [List.map_cons, distinctKeys, Bool.and_eq_true, Bool.not_eq_true'] at hkeys'
    obtain ⟨hcont, hrest⟩ := hkeys'
    have hnotmem : m.1 ∉ t.map Prod.fst := by
      intro hm
      have helem : (t.map Prod.fst).elem m.1 = true := List.elem_iff.mpr hm
      rw [show (t.map Prod.fst).contains m.1 = (t.map Prod.fst).elem m.1 from rfl] at hcont
      rw [helem] at hcont
      exact Bool.noConfusion hcont
    simp only [List.foldl_cons]
    rw [setKey_append acc m.1 m.2 (hdisj m (by simp))]
    rw [ih (acc ++ [(m.1, m.2)])
      (fun m2 hm2 => by
        rw [List.any_append, hdisj m2 (by simp [hm2]), Bool.false_or]
        have hne : (m.1 == m2.1) = false := by
          refine beq_eq_false_iff_ne.mpr ?_
          intro hEq
          exact hnotmem (hEq ▸ List.mem_map_of_mem Prod.fst hm2)
        simp [hne])
      hrest]
    simp

theorem collapse_of_distinct (l : List (String × Json))
    (h : distinctKeys (l.map Prod.fst) = true) : collapse l = l := by
  unfold collapse
  rw [foldl_setKey_append l [] (fun m _ => rfl) h]
  rfl

/-! ## The JSON round trip -/

theorem string_mk_data (s : String) : String.mk s.data = s := by cases s; rfl

theorem parseP_correct : ∀ f : Nat,
    (∀ (x : Json) (rest : List Char), Json.wf x = true → headNotDig rest →
      2 * (Json.stringify x).length + 2 ≤ f →
      parseP f .value (Json.stringify x ++ rest) = some (.v x, rest))
    ∧ (∀ (x : Json) (xs : List Json) (rest : List Char),
      Json.wf x = true → wfList xs = true →
      2 * (Json.stringify x ++ emitRest xs).length + 3 ≤ f →
      parseP f .elems (Json.stringify x ++ (emitRest xs ++ ']' :: rest))
        = some (.vs (x :: xs), rest))
    ∧ (∀ (k : String) (v : Json) (ms : List (String × Json)) (rest : List Char),
      Json.wf v = true → wfMembers ms = true →
      2 * (emitMember (k, v) ++ emitMembersRest ms).length + 3 ≤ f →
      parseP f .members (emitMember (k, v) ++ (emitMembersRest ms ++ '}' :: rest))
        = some (.ms ((k, v) :: ms), rest)) := by
  intro f
  induction f with
  | zero =>
    refine ⟨?_, ?_, ?_⟩
    · intro x rest _ _ hlen; exact absurd hlen (by omega)
    · intro x xs rest _ _ hlen; exact absurd hlen (by omega)
    · intro k v ms rest _ _ hlen; exact absurd hlen (by omega)
  | succ f2 ih =>
    obtain ⟨ihP, ihQ, ihR⟩ := ih
    refine ⟨?_, ?_, ?_⟩
    · -- values
      intro x rest hwf hnd hlen
      cases x with
      | null =>
        simp [parseP, Json.stringify, skipWs, List.dropWhile_cons, isWs, expectLit]
      | bool b =>
        cases b with
        | true => simp [parseP, Json.stringify, skipWs, List.dropWhile_cons, isWs, expectLit]
        | false => simp [parseP, Json.stringify, skipWs, List.dropWhile_cons, isWs, expectLit]
      | num n =>
        simp only [Json.stringify, intRepr]
        by_cases hn : n < 0
        · rw [if_pos hn]
          have hpn := parseNat_natRepr n.natAbs rest hnd
          have hval : -(Int.ofNat n.natAbs) = n := by
            rw [Int.ofNat_eq_natCast]
            omega
          have hval2 : -|n| = n := by rw [abs_of_neg hn, neg_neg]
          simp [parseP, skipWs, List.dropWhile_cons, isWs, isDig, hpn, hval, hval2]
        · rw [if_neg hn]
          rcases hrep : natRepr n.natAbs with _ | ⟨c, r⟩
          · exact absurd hrep (natRepr_ne_nil _)
          · have hc : isDig c = true := natRepr_all_dig _ c (by rw [hrep]; simp)
            obtain ⟨hws, hne1, hne2, hne3, hne4, hne5, hne6, hne7, _, _⟩ :=
              isDig_char_facts c hc
            have hpn := parseNat_natRepr n.natAbs rest hnd
            rw [hrep, List.cons_append] at hpn
            have hval : Int.ofNat n.natAbs = n := by
              rw [Int.ofNat_eq_natCast]
              omega
            have hval2 : |n| = n := abs_of_nonneg (by omega)
            simp only [List.cons_append, parseP]
            rw [skipWs_cons_not_ws _ _ hws]
            simp [hne1, hne2, hne3, hne4, hne5, hc, hpn, hval, hval2]
      | str str0 =>
        have hesc1 := parseStringBody_escape str0.data rest
          ((escapeList str0.data ++ '"' :: rest).length + 1)
          (by simp only [List.length_append, List.length_cons]; omega)
        have hesc2 := parseStringBody_escape str0.data rest
          ((escapeList str0.data).length + (rest.length + 1) + 1) (by omega)
        simp only [Json.stringify, List.cons_append, List.append_assoc,
          List.singleton_append, List.nil_append, parseP]
        rw [skipWs_cons_not_ws _ _ (by decide)]
        simp [hesc1, hesc2, string_mk_data]
      | arr xs =>
        cases xs with
        | nil =>
          simp [parseP, Json.stringify, skipWs, List.dropWhile_cons, isWs, isDig]
        | cons y ys =>
          simp only [Json.wf, wfList, Bool.and_eq_true] at hwf
          obtain ⟨hwy, hwys⟩ := hwf
          have hlx : 1 ≤ (Json.stringify y).length :=
            List.length_pos.mpr (stringify_ne_nil y)
          simp only [Json.stringify, List.length_cons, List.length_append,
            List.length_singleton] at hlen
          obtain ⟨c2, r2, heq, hws2, hne2, hne3⟩ :=
            stringify_head y
          have hQ := ihQ y ys rest hwy hwys (by
            simp only [List.length_append]
            omega)
          have hsh : Json.stringify y ++ (emitRest ys ++ (']' :: rest))
              = c2 :: (r2 ++ (emitRest ys ++ (']' :: rest))) := by rw [heq]; simp
          simp only [Json.stringify, List.cons_append, List.append_assoc,
            List.singleton_append, List.nil_append, parseP]
          rw [skipWs_cons_not_ws _ _ (by decide)]
          simp only [show ('[' = 'n') = False by simp, show ('[' = 't') = False by simp,
            show ('[' = 'f') = False by simp, show ('[' = '"') = False by simp,
            show ('[' = '-') = False by simp, show (isDig '[') = false by decide,
            show ('[' = '[') = True by simp, if_true, if_false, Bool.false_eq_true,
            iff_false, ite_false, ite_true]
          rw [hsh, skipWs_cons_not_ws _ _ hws2]
          simp [hne2, ← hsh, hQ]
      | obj ms =>
        cases ms with
        | nil =>
          simp [parseP, Json.stringify, skipWs, List.dropWhile_cons, isWs, isDig]
        | cons m t =>
          rcases m with ⟨k, v⟩
          simp only [Json.wf, Bool.and_eq_true] at hwf
          obtain ⟨hdk, hwm⟩ := hwf
          have hwm2 := hwm
          simp only [wfMembers, Bool.and_eq_true] at hwm2
          obtain ⟨hwv, hwt⟩ := hwm2
          have hR := ihR k v t rest hwv hwt (by
            simp only [Json.stringify, List.length_cons, List.length_append,
              List.length_singleton] at hlen
            simp only [List.length_append]
            omega)
          have hsh : emitMember (k, v) ++ (emitMembersRest t ++ ('}' :: rest))
              = '"' :: (escapeList k.data ++ ('"' :: (':' :: (Json.stringify v
                ++ (emitMembersRest t ++ ('}' :: rest)))))) := by
            simp [emitMember]
          simp only [Json.stringify, List.cons_append, List.append_assoc,
            List.singleton_append, List.nil_append, parseP]
          rw [skipWs_cons_not_ws _ _ (by decide)]
          simp only [show ('{' = 'n') = False by simp, show ('{' = 't') = False by simp,
            show ('{' = 'f') = False by simp, show ('{' = '"') = False by simp,
            show ('{' = '-') = False by simp, show (isDig '{') = false by decide,
            show ('{' = '[') = False by simp, show ('{' = '{') = True by simp,
            if_true, if_false, Bool.false_eq_true, iff_false, ite_false, ite_true]
          rw [hsh] at hR
          rw [hsh, skipWs_cons_not_ws _ _ (by decide)]
          simp [show ('"' = '}') = False by simp, hR, collapse_of_distinct _ hdk]
    · -- array elements
      intro x xs rest hwx hwxs hlen
      have hnd2 : headNotDig (emitRest xs ++ ']' :: rest) := by
        cases xs with
        | nil =>
          simp only [emitRest, List.nil_append]
          exact headNotDig_cons ']' rest (by decide)
        | cons y ys =>
          simp only [emitRest, List.cons_append]
          exact headNotDig_cons ',' _ (by decide)
      have hlx : 1 ≤ (Json.stringify x).length :=
        List.length_pos.mpr (stringify_ne_nil x)
      simp only [List.length_append] at hlen
      have hP := ihP x (emitRest xs ++ ']' :: rest) hwx hnd2 (by omega)
      simp only [parseP]
      rw [hP]
      cases xs with
      | nil =>
        simp only [emitRest, List.nil_append]
        rw [skipWs_cons_not_ws _ _ (by decide)]
        simp
      | cons y ys =>
        simp only [wfList, Bool.and_eq_true] at hwxs
        obtain ⟨hwy, hwys⟩ := hwxs
        simp only [emitRest, List.length_cons, List.length_append] at hlen ⊢
        have hQ := ihQ y ys rest hwy hwys (by simp only [List.length_append]; omega)
        simp only [List.cons_append, List.append_assoc]
        rw [skipWs_cons_not_ws _ _ (by decide)]
        simp only [show (',' = ',') = True by simp, ite_true]
        rw [hQ]
    · -- object members
      intro k v ms rest hwv hwms hlen
      have hnd2 : headNotDig (emitMembersRest ms ++ '}' :: rest) := by
        cases ms with
        | nil =>
          simp only [emitMembersRest, List.nil_append]
          exact headNotDig_cons '}' rest (by decide)
        | cons m2 t2 =>
          simp only [emitMembersRest, List.cons_append]
          exact headNotDig_cons ',' _ (by decide)
      have hlm : (emitMember (k, v)).length
          = (escapeList k.data).length + (Json.stringify v).length + 3 := by
        simp [emitMember, List.length_append]
        omega
      simp only [List.length_append] at hlen
      have hP := ihP v (emitMembersRest ms ++ '}' :: rest) hwv hnd2 (by omega)
      rw [show emitMember (k, v) ++ (emitMembersRest ms ++ ('}' :: rest))
          = '"' :: (escapeList k.data ++ ('"' :: (':' :: (Json.stringify v
            ++ (emitMembersRest ms ++ ('}' :: rest)))))) by simp [emitMember]]
      simp only [parseP]
      rw [skipWs_cons_not_ws _ _ (by decide)]
      simp only [show ('"' = '"') = True by simp, ite_true]
      have hesc := parseStringBody_escape k.data
        (':' :: (Json.stringify v ++ (emitMembersRest ms ++ ('}' :: rest))))
        ((escapeList k.data ++ ('"' :: (':' :: (Json.stringify v
          ++ (emitMembersRest ms ++ ('}' :: rest)))))).length + 1)
        (by simp only [List.length_append, List.length_cons]; omega)
      rw [hesc]
      have hsk1 : skipWs (':' :: (Json.stringify v ++ (emitMembersRest ms ++ ('}' :: rest))))
          = ':' :: (Json.stringify v ++ (emitMembersRest ms ++ ('}' :: rest))) :=
        skipWs_cons_not_ws _ _ (by decide)
      simp only [hsk1, show (':' = ':') = True by simp, ite_true, hP]
      cases ms with
      | nil =>
        have hsk2 : skipWs (emitMembersRest ([] : List (String × Json)) ++ '}' :: rest)
            = '}' :: rest := by
          simp only [emitMembersRest, List.nil_append]
          exact skipWs_cons_not_ws _ _ (by decide)
        simp only [hsk2, show ('}' = ',') = False by simp,
          show ('}' = '}') = True by simp, ite_true, ite_false, if_false, if_true,
          string_mk_data]
      | cons m2 t2 =>
        rcases m2 with ⟨k2, v2⟩
        simp only [wfMembers, Bool.and_eq_true] at hwms
        obtain ⟨hwv2, hwt2⟩ := hwms
        simp only [emitMembersRest, List.length_cons, List.length_append] at hlen
        have hR := ihR k2 v2 t2 rest hwv2 hwt2 (by simp only [List.length_append]; omega)
        have hsk3 : skipWs (emitMembersRest ((k2, v2) :: t2) ++ '}' :: rest)
            = ',' :: (emitMember (k2, v2) ++ (emitMembersRest t2 ++ ('}' :: rest))) := by
          simp only [emitMembersRest, List.cons_append, List.append_assoc]
          exact skipWs_cons_not_ws _ _ (by decide)
        simp only [hsk3, show (',' = ',') = True by simp, ite_true, hR, string_mk_data]

theorem parse_stringify (x : Json) (h : Json.wf x = true) :
    jsonParse ⟨Json.stringify x⟩ = some x := by
  have hP := (parseP_correct (2 * (Json.stringify x).length + 4)).1 x [] h
    headNotDig_nil (by omega)
  rw [List.append_nil] at hP
  unfold jsonParse
  rw [show (String.mk (Json.stringify x)).data = Json.stringify x from rfl]
  rw [hP]
  rfl

/-- C8: serializing a JSON-serializable value (no cycles, and as a value of
an actual JavaScript runtime, no duplicate object keys) with `buildPayload`
and parsing the result with `parseJsonSafely` reproduces the value exactly:
the serializer-then-safe-parser composition is a round trip. -/
theorem buildPayload_parse_roundtrip : ∀ (b : RequestBuilder) (x : Json),
    Json.wf x = true →
    ResponseValidator.parseJsonSafely (b.buildPayload x) = some x := by
  intro b x h
  exact parse_stringify x h

/-- C8 witness: a nested object with an array, negative number, escaped
string, null, boolean and a nested object round-trips. -/
theorem buildPayload_parse_roundtrip_witness :
    ResponseValidator.parseJsonSafely ((RequestBuilder.init "https://api.example.com").buildPayload
        (.obj [("title", .str "Test\nLine"), ("userId", .num 1),
               ("tags", .arr [.str "a", .num (-2), .null, .bool true]),
               ("nested", .obj [("k", .str "v")])]))
      = some (.obj [("title", .str "Test\nLine"), ("userId", .num 1),
               ("tags", .arr [.str "a", .num (-2), .null, .bool true]),
               ("nested", .obj [("k", .str "v")])]) :=
  buildPayload_parse_roundtrip (RequestBuilder.init "https://api.example.com")
    (.obj [("title", .str "Test\nLine"), ("userId", .num 1),
           ("tags", .arr [.str "a", .num (-2), .null, .bool true]),
           ("nested", .obj [("k", .str "v")])])
    (by simp [Json.wf, wfList, wfMembers, distinctKeys])

end K6
